import Mathlib

/-!
Verification of the candle 2D-vector library (`src/math/approx_eq.rs`,
`src/math/vec2.rs`).

The Rust code computes over IEEE-754 `f64`.  We embed `f64` as an inductive
type `F64` of finite values (carried as real numbers), signed infinities and
NaN, and give the arithmetic of the source at two levels of fidelity:

* an exact level (`F64.add`, `F64.sub`, ...), in which finite results are
  exact reals with IEEE special-value propagation.  This level is used for
  the properties whose truth about the program does not depend on rounding
  (structural componentwise identities, commutativity, alias and overload
  agreement, NaN/infinity propagation, and `a - a = 0`);
* a rounded level (`F64.addR`, `F64.subR`, ...), in which every finite
  result additionally passes through `round64`, the IEEE-754
  round-to-nearest, ties-to-even rounding to the binary64 grid, including
  gradual underflow to the subnormal range (exponents clamped at `-1074`)
  and overflow to infinity at `2^1024`.  This level is used for the
  properties whose truth depends on rounding: the threshold behaviour of
  `approx_eq`, underflow in `length`, and the accuracy of `normalized`.

Every definition mirrors the corresponding Rust item; the by-reference
operator overload variants are embedded separately so their agreement can
be stated.
-/

noncomputable section

namespace Candle

/-- Idealized IEEE-754 binary64 value: `fin r` is a finite double holding the
real number `r`, `inf true` is `+∞`, `inf false` is `-∞`, `nan` is NaN. -/
inductive F64 : Type where
  | fin : ℝ → F64
  | inf : Bool → F64
  | nan : F64

namespace F64

/-- IEEE-754 addition on idealized doubles (finite part exact). -/
def add : F64 → F64 → F64
  | nan, _ => nan
  | _, nan => nan
  | fin a, fin b => fin (a + b)
  | fin _, inf s => inf s
  | inf s, fin _ => inf s
  | inf s, inf t => if s = t then inf s else nan

/-- IEEE-754 subtraction on idealized doubles (finite part exact). -/
def sub : F64 → F64 → F64
  | nan, _ => nan
  | _, nan => nan
  | fin a, fin b => fin (a - b)
  | fin _, inf s => inf !s
  | inf s, fin _ => inf s
  | inf s, inf t => if s = t then nan else inf s

/-- Sign-correct product of a finite double and an infinity (`0 * ∞ = NaN`). -/
def mulFinInf (a : ℝ) (s : Bool) : F64 :=
  if a = 0 then nan else if 0 < a then inf s else inf !s

/-- IEEE-754 multiplication on idealized doubles (finite part exact). -/
def mul : F64 → F64 → F64
  | nan, _ => nan
  | _, nan => nan
  | fin a, fin b => fin (a * b)
  | fin a, inf s => mulFinInf a s
  | inf s, fin a => mulFinInf a s
  | inf s, inf t => inf (s == t)

/-- IEEE-754 division on idealized doubles (finite part exact; signed zero is
not modelled, so a zero divisor or dividend behaves as `+0`). -/
def div : F64 → F64 → F64
  | nan, _ => nan
  | _, nan => nan
  | fin a, fin b =>
    if b = 0 then (if a = 0 then nan else if 0 < a then inf true else inf false)
    else fin (a / b)
  | fin _, inf _ => fin 0
  | inf s, fin b => if b < 0 then inf !s else inf s
  | inf _, inf _ => nan

/-- IEEE-754 absolute value on idealized doubles. -/
def abs : F64 → F64
  | fin a => fin |a|
  | inf _ => inf true
  | nan => nan

/-- IEEE-754 square root on idealized doubles (NaN on negative input). -/
def sqrt : F64 → F64
  | fin a => if a < 0 then nan else fin (Real.sqrt a)
  | inf s => if s then inf true else nan
  | nan => nan

/-- The IEEE-754 strict `<` comparison: any comparison involving NaN is
false. -/
def lt : F64 → F64 → Prop
  | nan, _ => False
  | _, nan => False
  | fin a, fin b => a < b
  | fin _, inf s => s = true
  | inf s, fin _ => s = false
  | inf s, inf t => s = false ∧ t = true

/-- `f64::EPSILON`, the machine epsilon `2^-52`. -/
def EPSILON : F64 := fin (1 / 2 ^ 52)

/-- `impl ApproxEq<f64> for f64`, method `approx_eq_eps`:
`(self - other).abs() < eps`. -/
def approx_eq_eps (self other eps : F64) : Prop :=
  lt (abs (sub self other)) eps

/-- `impl ApproxEq<f64> for f64`, method `approx_eq`:
`self.approx_eq_eps(other, f64::EPSILON)`. -/
def approx_eq (self other : F64) : Prop :=
  approx_eq_eps self other EPSILON

end F64

/-- `pub struct Vec2 { pub x: f64, pub y: f64 }`. -/
structure Vec2 : Type where
  x : F64
  y : F64

/-- `const VEC2_EPSILON : Vec2 = Vec2{ x: f64::EPSILON, y: f64::EPSILON }`. -/
def VEC2_EPSILON : Vec2 := ⟨F64.EPSILON, F64.EPSILON⟩

/-- `const VEC2_IDENTITY : Vec2 = Vec2{ x: 1.0, y: 1.0 }`. -/
def VEC2_IDENTITY : Vec2 := ⟨F64.fin 1, F64.fin 1⟩

namespace Vec2

/-- `Vec2::new(x, y)`. -/
def new (x y : F64) : Vec2 := ⟨x, y⟩

/-- `Vec2::dot`: `(self.x * other.x) + (self.y * other.y)`. -/
def dot (self other : Vec2) : F64 :=
  (self.x.mul other.x).add (self.y.mul other.y)

/-- `Vec2::length`: `(self.x * self.x + self.y * self.y).sqrt()`. -/
def length (self : Vec2) : F64 :=
  ((self.x.mul self.x).add (self.y.mul self.y)).sqrt

/-- `Vec2::magnitude`: alias calling `self.length()`. -/
def magnitude (self : Vec2) : F64 :=
  self.length

/-- `Vec2::normalized`: `let length = self.length();
Vec2::new(self.x / length, self.y / length)`. -/
def normalized (self : Vec2) : Vec2 :=
  let length := self.length
  Vec2.new (self.x.div length) (self.y.div length)

/-- `impl Add<Vec2> for Vec2` (both operands owned). -/
def addOwnOwn (self other : Vec2) : Vec2 :=
  ⟨self.x.add other.x, self.y.add other.y⟩

/-- `impl Add<&Vec2> for Vec2` (owned + borrowed). -/
def addOwnRef (self other : Vec2) : Vec2 :=
  ⟨self.x.add other.x, self.y.add other.y⟩

/-- `impl Add<&Vec2> for &Vec2` (borrowed + borrowed). -/
def addRefRef (self other : Vec2) : Vec2 :=
  ⟨self.x.add other.x, self.y.add other.y⟩

/-- `impl Add<Vec2> for &Vec2` (borrowed + owned). -/
def addRefOwn (self other : Vec2) : Vec2 :=
  ⟨self.x.add other.x, self.y.add other.y⟩

/-- `impl Add<f64> for Vec2`. -/
def addOwnScalar (self : Vec2) (other : F64) : Vec2 :=
  ⟨self.x.add other, self.y.add other⟩

/-- `impl Add<f64> for &Vec2`. -/
def addRefScalar (self : Vec2) (other : F64) : Vec2 :=
  ⟨self.x.add other, self.y.add other⟩

/-- `impl Sub<Vec2> for Vec2` (both operands owned). -/
def subOwnOwn (self other : Vec2) : Vec2 :=
  Vec2.new (self.x.sub other.x) (self.y.sub other.y)

/-- `impl Sub<&Vec2> for Vec2` (owned − borrowed). -/
def subOwnRef (self other : Vec2) : Vec2 :=
  Vec2.new (self.x.sub other.x) (self.y.sub other.y)

/-- `impl Sub<&Vec2> for &Vec2` (borrowed − borrowed). -/
def subRefRef (self other : Vec2) : Vec2 :=
  Vec2.new (self.x.sub other.x) (self.y.sub other.y)

/-- `impl Sub<Vec2> for &Vec2` (borrowed − owned). -/
def subRefOwn (self other : Vec2) : Vec2 :=
  Vec2.new (self.x.sub other.x) (self.y.sub other.y)

/-- `impl Sub<f64> for Vec2`. -/
def subOwnScalar (self : Vec2) (value : F64) : Vec2 :=
  Vec2.new (self.x.sub value) (self.y.sub value)

/-- `impl Sub<f64> for &Vec2`. -/
def subRefScalar (self : Vec2) (value : F64) : Vec2 :=
  Vec2.new (self.x.sub value) (self.y.sub value)

/-- `impl ApproxEq<Vec2> for Vec2`, method `approx_eq_eps`:
`(self.x - other.x).abs() < eps.x && (self.y - other.y).abs() < eps.y`. -/
def approx_eq_eps (self other eps : Vec2) : Prop :=
  F64.lt (F64.abs (self.x.sub other.x)) eps.x ∧
  F64.lt (F64.abs (self.y.sub other.y)) eps.y

/-- `impl ApproxEq<Vec2> for Vec2`, method `approx_eq`:
`self.approx_eq_eps(other, VEC2_EPSILON)`. -/
def approx_eq (self other : Vec2) : Prop :=
  approx_eq_eps self other VEC2_EPSILON

/-- `impl ApproxEq<&Vec2> for Vec2`, method `approx_eq_eps` (same body as the
owned variant, on borrowed `other` and `eps`). -/
def approx_eq_epsV2 (self other eps : Vec2) : Prop :=
  F64.lt (F64.abs (self.x.sub other.x)) eps.x ∧
  F64.lt (F64.abs (self.y.sub other.y)) eps.y

/-- `impl ApproxEq<&Vec2> for Vec2`, method `approx_eq`:
`self.approx_eq_eps(other, &VEC2_EPSILON)`. -/
def approx_eqV2 (self other : Vec2) : Prop :=
  approx_eq_epsV2 self other VEC2_EPSILON

/-- `impl ApproxEq<&Vec2> for &Vec2`, method `approx_eq_eps` (same body, on a
borrowed receiver). -/
def approx_eq_epsV3 (self other eps : Vec2) : Prop :=
  F64.lt (F64.abs (self.x.sub other.x)) eps.x ∧
  F64.lt (F64.abs (self.y.sub other.y)) eps.y

/-- `impl ApproxEq<&Vec2> for &Vec2`, method `approx_eq`:
`self.approx_eq_eps(other, &VEC2_EPSILON)`. -/
def approx_eqV3 (self other : Vec2) : Prop :=
  approx_eq_epsV3 self other VEC2_EPSILON

end Vec2

/-- Round-to-nearest integer with ties broken to the even integer, the
IEEE-754 default tie rule applied to a scaled mantissa. -/
def rne (x : ℝ) : ℤ :=
  if x - ⌊x⌋ < 1/2 then ⌊x⌋
  else if 1/2 < x - ⌊x⌋ then ⌊x⌋ + 1
  else if Even ⌊x⌋ then ⌊x⌋ else ⌊x⌋ + 1

/-- Rounding of a real number to the IEEE-754 binary64 grid with
round-to-nearest, ties-to-even: the exponent is read off the binade of the
number and clamped below at `-1074` (gradual underflow to subnormals), the
scaled mantissa is rounded with `rne`, and results of magnitude at least
`2^1024` overflow to the correctly signed infinity. -/
def round64 (r : ℝ) : F64 :=
  if r = 0 then .fin 0
  else
    if (2:ℝ) ^ (1024:ℤ) ≤
        |(rne (r / 2 ^ max (Int.log 2 |r| - 52) (-1074)) : ℝ) *
          2 ^ max (Int.log 2 |r| - 52) (-1074)|
    then (if 0 < r then .inf true else .inf false)
    else .fin ((rne (r / 2 ^ max (Int.log 2 |r| - 52) (-1074)) : ℝ) *
          2 ^ max (Int.log 2 |r| - 52) (-1074))

/-- IEEE-754 addition with correctly rounded finite results. -/
def F64.addR : F64 → F64 → F64
  | .nan, _ => .nan
  | _, .nan => .nan
  | .fin a, .fin b => round64 (a + b)
  | .fin _, .inf s => .inf s
  | .inf s, .fin _ => .inf s
  | .inf s, .inf t => if s = t then .inf s else .nan

/-- IEEE-754 subtraction with correctly rounded finite results. -/
def F64.subR : F64 → F64 → F64
  | .nan, _ => .nan
  | _, .nan => .nan
  | .fin a, .fin b => round64 (a - b)
  | .fin _, .inf s => .inf !s
  | .inf s, .fin _ => .inf s
  | .inf s, .inf t => if s = t then .nan else .inf s

/-- IEEE-754 multiplication with correctly rounded finite results. -/
def F64.mulR : F64 → F64 → F64
  | .nan, _ => .nan
  | _, .nan => .nan
  | .fin a, .fin b => round64 (a * b)
  | .fin a, .inf s => F64.mulFinInf a s
  | .inf s, .fin a => F64.mulFinInf a s
  | .inf s, .inf t => .inf (s == t)

/-- IEEE-754 division with correctly rounded finite results (signed zero is
not modelled, so a zero divisor or dividend behaves as `+0`). -/
def F64.divR : F64 → F64 → F64
  | .nan, _ => .nan
  | _, .nan => .nan
  | .fin a, .fin b =>
    if b = 0 then (if a = 0 then .nan else if 0 < a then .inf true else .inf false)
    else round64 (a / b)
  | .fin _, .inf _ => .fin 0
  | .inf s, .fin b => if b < 0 then .inf !s else .inf s
  | .inf _, .inf _ => .nan

/-- IEEE-754 square root with correctly rounded finite results (NaN on
negative input). -/
def F64.sqrtR : F64 → F64
  | .fin a => if a < 0 then .nan else round64 (Real.sqrt a)
  | .inf s => if s then .inf true else .nan
  | .nan => .nan

/-- `impl ApproxEq<f64> for f64`, method `approx_eq_eps`, over the rounded
arithmetic: `(self - other).abs() < eps` with a correctly rounded
subtraction. -/
def F64.approx_eq_epsR (self other eps : F64) : Prop :=
  F64.lt (F64.abs (F64.subR self other)) eps

/-- `impl ApproxEq<f64> for f64`, method `approx_eq`, over the rounded
arithmetic. -/
def F64.approx_eqR (self other : F64) : Prop :=
  F64.approx_eq_epsR self other F64.EPSILON

/-- `Vec2::length` over the rounded arithmetic:
`(self.x * self.x + self.y * self.y).sqrt()`. -/
def Vec2.lengthR (self : Vec2) : F64 :=
  ((self.x.mulR self.x).addR (self.y.mulR self.y)).sqrtR

/-- `Vec2::normalized` over the rounded arithmetic: `let length =
self.length(); Vec2::new(self.x / length, self.y / length)`. -/
def Vec2.normalizedR (self : Vec2) : Vec2 :=
  let length := self.lengthR
  Vec2.new (self.x.divR length) (self.y.divR length)

/-- `impl ApproxEq<Vec2> for Vec2`, method `approx_eq_eps`, over the rounded
arithmetic. -/
def Vec2.approx_eq_epsR (self other eps : Vec2) : Prop :=
  F64.lt (F64.abs (self.x.subR other.x)) eps.x ∧
  F64.lt (F64.abs (self.y.subR other.y)) eps.y

/-- `impl ApproxEq<Vec2> for Vec2`, method `approx_eq`, over the rounded
arithmetic. -/
def Vec2.approx_eqR (self other : Vec2) : Prop :=
  Vec2.approx_eq_epsR self other VEC2_EPSILON

/-- Value of `rne` at an integer. -/
theorem rne_int (n : ℤ) : rne (n : ℝ) = n := by
  rw [rne, Int.floor_intCast]
  norm_num

/-- Value of `rne` below the midpoint: round down. -/
theorem rne_low (x : ℝ) (n : ℤ) (h1 : (n:ℝ) ≤ x) (h2 : x < n + 1/2) : rne x = n := by
  have hf : ⌊x⌋ = n := Int.floor_eq_iff.mpr ⟨h1, by linarith⟩
  rw [rne, hf, if_pos (by linarith)]

/-- Value of `rne` above the midpoint: round up. -/
theorem rne_high (x : ℝ) (n : ℤ) (h1 : (n:ℝ) + 1/2 < x) (h2 : x < n + 1) :
    rne x = n + 1 := by
  have hf : ⌊x⌋ = n := Int.floor_eq_iff.mpr ⟨by linarith, by linarith⟩
  rw [rne, hf, if_neg (by linarith), if_pos (by linarith)]

/-- Value of `rne` at a midpoint over an odd integer: ties go to the even
integer above. -/
theorem rne_tie_odd (n : ℤ) (h : Odd n) : rne ((n:ℝ) + 1/2) = n + 1 := by
  have hf : ⌊(n:ℝ) + 1/2⌋ = n := Int.floor_eq_iff.mpr ⟨by linarith, by linarith⟩
  rw [rne, hf, if_neg (by linarith), if_neg (by linarith),
    if_neg (by simpa [Int.even_iff, Int.odd_iff] using h)]

/-- Characterization of `Int.log 2` from two-sided power bounds. -/
theorem int_log2_eq (x : ℝ) (l : ℤ) (hx : 0 < x)
    (h1 : (2:ℝ) ^ l ≤ x) (h2 : x < (2:ℝ) ^ (l + 1)) : Int.log 2 x = l := by
  have ha : l ≤ Int.log 2 x := by
    rw [← Int.zpow_le_iff_le_log one_lt_two hx]
    exact_mod_cast h1
  have hb2 : Int.log 2 x < l + 1 := by
    rw [← Int.lt_zpow_iff_log_lt one_lt_two hx]
    exact_mod_cast h2
  omega

/-- Bridge from an integer power of two to a rational numeral, negative
exponent. -/
theorem two_zpow_eq_div (E : ℤ) (n : ℕ) (h : E = -(n:ℤ)) : (2:ℝ) ^ E = 1 / 2 ^ n := by
  subst h
  rw [zpow_neg, zpow_natCast, one_div]

/-- Bridge from an integer power of two to a rational numeral, nonnegative
exponent. -/
theorem two_zpow_eq_pow (E : ℤ) (n : ℕ) (h : E = (n:ℤ)) : (2:ℝ) ^ E = 2 ^ n := by
  subst h
  rw [zpow_natCast]

/-- Zero rounds to zero. -/
theorem round64_zero : round64 0 = .fin 0 := by
  rw [round64, if_pos rfl]

/-- Evaluation lemma for `round64` on a nonzero number with known binade,
rounded mantissa and no overflow. -/
theorem round64_eval (r : ℝ) (l E m : ℤ) (h0 : r ≠ 0)
    (h1 : (2:ℝ) ^ l ≤ |r|) (h2 : |r| < (2:ℝ) ^ (l + 1))
    (hE : max (l - 52) (-1074) = E)
    (hm : rne (r / 2 ^ E) = m)
    (hb : |(m:ℝ) * 2 ^ E| < (2:ℝ) ^ (1024:ℤ)) :
    round64 r = .fin ((m:ℝ) * 2 ^ E) := by
  have habs : (0:ℝ) < |r| := abs_pos.mpr h0
  have hlog : Int.log 2 |r| = l := int_log2_eq _ _ habs h1 h2
  rw [round64, if_neg h0, hlog, hE, hm, if_neg (not_le.mpr hb)]

/-- The comparison made by the rounded `approx_eq_eps` on finite operands:
true exactly when the rounded difference is a finite value below `e`. -/
theorem lt_abs_round64_iff (r e : ℝ) :
    F64.lt (F64.abs (round64 r)) (.fin e) ↔
      ∃ d : ℝ, round64 r = .fin d ∧ |d| < e := by
  cases h : round64 r with
  | fin d => simp [F64.abs, F64.lt]
  | inf s => simp [F64.abs, F64.lt]
  | nan => simp [F64.abs, F64.lt]

/-- The rounded difference of `2^-52` and `2^-106`: the scaled mantissa sits
on the midpoint `2^53 - 1/2` and ties-to-even rounds it up, so the computed
difference is exactly `2^-52` again. -/
theorem round64_tie : round64 ((1:ℝ)/2^52 - 1/2^106) = .fin (1/2^52) := by
  have e1 : (2:ℝ) ^ (-105:ℤ) = 1 / 2 ^ 105 := two_zpow_eq_div _ 105 (by norm_num)
  have h := round64_eval ((1:ℝ)/2^52 - 1/2^106) (-53) (-105) (2^53)
    (by norm_num)
    (by rw [abs_of_pos (by norm_num), two_zpow_eq_div (-53) 53 (by norm_num)]; norm_num)
    (by rw [abs_of_pos (by norm_num), show (-53:ℤ) + 1 = -52 by norm_num,
          two_zpow_eq_div (-52) 52 (by norm_num)]; norm_num)
    (by omega)
    (by rw [e1, show ((1:ℝ)/2^52 - 1/2^106) / (1/2^105) = ((2^53 - 1 : ℤ) : ℝ) + 1/2 by
          push_cast; norm_num,
          rne_tie_odd _ (by decide)]
        norm_num)
    (by rw [e1]; push_cast; rw [abs_of_pos (by norm_num)]
        rw [two_zpow_eq_pow 1024 1024 (by norm_num)]; norm_num)
  rw [h, e1]
  norm_num

/-- Total underflow: `2^-1200` is far below the smallest subnormal, so its
scaled mantissa rounds to 0 and the result flushes to zero. -/
theorem round64_flush : round64 ((1:ℝ)/2^1200) = .fin 0 := by
  have e1 : (2:ℝ) ^ (-1074:ℤ) = 1 / 2 ^ 1074 := two_zpow_eq_div _ 1074 (by norm_num)
  have h := round64_eval ((1:ℝ)/2^1200) (-1200) (-1074) 0
    (by norm_num)
    (by rw [abs_of_pos (by norm_num), two_zpow_eq_div (-1200) 1200 (by norm_num)])
    (by rw [abs_of_pos (by norm_num), show (-1200:ℤ) + 1 = -1199 by norm_num,
          two_zpow_eq_div (-1199) 1199 (by norm_num)]; norm_num)
    (by omega)
    (by rw [e1]
        apply rne_low
        · push_cast
          positivity
        · push_cast
          norm_num)
    (by rw [e1, two_zpow_eq_pow 1024 1024 (by norm_num)]; push_cast; norm_num)
  rw [h, e1]
  norm_num

/-- C1 counterexample: at `a = 2^-52`, `b = 2^-106` the exact difference is
strictly below machine epsilon, yet the program's rounded subtraction gives
exactly `2^-52` (ties-to-even) and `approx_eq` returns false. -/
theorem C1_counterexample :
    |(1:ℝ)/2^52 - 1/2^106| < 1/2^52 ∧
    ¬ F64.approx_eqR (.fin ((1:ℝ)/2^52)) (.fin ((1:ℝ)/2^106)) := by
  constructor
  · rw [abs_of_pos (by norm_num)]
    norm_num
  · have h2 : F64.approx_eqR (.fin ((1:ℝ)/2^52)) (.fin ((1:ℝ)/2^106)) ↔
        ∃ d : ℝ, round64 ((1:ℝ)/2^52 - (1:ℝ)/2^106) = .fin d ∧ |d| < 1/2^52 :=
      lt_abs_round64_iff _ _
    rw [h2]
    rintro ⟨d, hd, hlt⟩
    rw [round64_tie] at hd
    injection hd with h
    subst h
    rw [abs_of_pos (by norm_num)] at hlt
    exact absurd hlt (by norm_num)

/-- C1 (amended): for finite doubles, `a.approx_eq(b)` holds iff the
IEEE-rounded difference `fl(a - b)` is a finite value of magnitude strictly
below `2^-52` — the threshold test applies to the computed, rounded
difference, not the exact one — and when either operand is NaN the result is
false (the strict `<` on a NaN difference fails), never an error. -/
theorem C1_f64_approx_eq_spec :
    (∀ a b : ℝ, F64.approx_eqR (.fin a) (.fin b) ↔
      ∃ d : ℝ, round64 (a - b) = .fin d ∧ |d| < 1 / 2 ^ 52) ∧
    (∀ c : F64, ¬ F64.approx_eqR .nan c ∧ ¬ F64.approx_eqR c .nan) := by
  constructor
  · intro a b
    exact lt_abs_round64_iff _ _
  · intro c
    constructor <;>
      cases c <;>
        simp [F64.approx_eqR, F64.approx_eq_epsR, F64.subR, F64.abs, F64.lt]

/-- C1 witness: concrete evaluations of the two parts. -/
theorem C1_f64_approx_eq_spec_witness :
    F64.approx_eqR (.fin 1) (.fin 1) ∧ ¬ F64.approx_eqR .nan (.fin 0) := by
  constructor
  · refine (C1_f64_approx_eq_spec.1 1 1).mpr ⟨0, ?_, by norm_num⟩
    rw [show (1:ℝ) - 1 = 0 by norm_num]
    exact round64_zero
  · exact (C1_f64_approx_eq_spec.2 (.fin 0)).1

/-- C2 counterexample: with `v.x = 2^-52`, `w.x = 2^-106`, `eps.x = 2^-52`
(y-axis trivial) the claimed per-axis condition on exact differences holds,
but the program's rounded x-axis difference is exactly `2^-52` and the
comparison fails. -/
theorem C2_counterexample :
    ((|(1:ℝ)/2^52 - 1/2^106| < 1/2^52) ∧ (|(0:ℝ) - 0| < 1/2^52)) ∧
    ¬ Vec2.approx_eq_epsR ⟨.fin ((1:ℝ)/2^52), .fin 0⟩ ⟨.fin ((1:ℝ)/2^106), .fin 0⟩
        ⟨.fin ((1:ℝ)/2^52), .fin ((1:ℝ)/2^52)⟩ := by
  refine ⟨⟨by rw [abs_of_pos (by norm_num)]; norm_num, by norm_num⟩, ?_⟩
  rintro ⟨hx, -⟩
  have h2 : F64.lt (F64.abs (round64 ((1:ℝ)/2^52 - (1:ℝ)/2^106))) (.fin ((1:ℝ)/2^52)) := hx
  rw [lt_abs_round64_iff] at h2
  obtain ⟨d, hd, hlt⟩ := h2
  rw [round64_tie] at hd
  injection hd with h
  subst h
  rw [abs_of_pos (by norm_num)] at hlt
  exact absurd hlt (by norm_num)

/-- C2 (amended): `Vec2.approx_eq_eps` is the per-axis conjunction of strict
`<` comparisons applied to the IEEE-rounded coordinate differences, and
`approx_eq` is `approx_eq_eps` with both tolerance components equal to
machine epsilon. -/
theorem C2_vec2_approx_eq_spec :
    (∀ vx vy wx wy ex ey : ℝ,
      Vec2.approx_eq_epsR ⟨.fin vx, .fin vy⟩ ⟨.fin wx, .fin wy⟩ ⟨.fin ex, .fin ey⟩ ↔
        ((∃ dx : ℝ, round64 (vx - wx) = .fin dx ∧ |dx| < ex) ∧
         (∃ dy : ℝ, round64 (vy - wy) = .fin dy ∧ |dy| < ey))) ∧
    (∀ v w : Vec2, Vec2.approx_eqR v w ↔
      Vec2.approx_eq_epsR v w ⟨.fin (1 / 2 ^ 52), .fin (1 / 2 ^ 52)⟩) := by
  constructor
  · intro vx vy wx wy ex ey
    exact and_congr (lt_abs_round64_iff _ _) (lt_abs_round64_iff _ _)
  · intro v w
    exact Iff.rfl

/-- C3 counterexample: `Vec2(2^-600, 0.0)` has `x*x` underflow to zero, so
its computed length is 0, yet `normalized()` divides the nonzero `x` by that
zero length and yields `+∞`, not NaN. -/
theorem C3_counterexample :
    Vec2.lengthR ⟨.fin ((1:ℝ)/2^600), .fin 0⟩ = .fin 0 ∧
    (Vec2.normalizedR ⟨.fin ((1:ℝ)/2^600), .fin 0⟩).x = .inf true ∧
    F64.inf true ≠ F64.nan := by
  have hxx : F64.mulR (.fin ((1:ℝ)/2^600)) (.fin ((1:ℝ)/2^600)) = .fin 0 := by
    show round64 ((1:ℝ)/2^600 * ((1:ℝ)/2^600)) = _
    rw [show (1:ℝ)/2^600 * ((1:ℝ)/2^600) = 1/2^1200 by norm_num]
    exact round64_flush
  have hlen : Vec2.lengthR ⟨.fin ((1:ℝ)/2^600), .fin 0⟩ = .fin 0 := by
    show F64.sqrtR (F64.addR (F64.mulR (.fin ((1:ℝ)/2^600)) (.fin ((1:ℝ)/2^600)))
        (round64 ((0:ℝ) * 0))) = _
    rw [hxx, mul_zero, round64_zero]
    show F64.sqrtR (round64 ((0:ℝ) + 0)) = _
    rw [add_zero, round64_zero]
    show (if (0:ℝ) < 0 then F64.nan else round64 (Real.sqrt 0)) = _
    rw [if_neg (lt_irrefl (0:ℝ)), Real.sqrt_zero, round64_zero]
  refine ⟨hlen, ?_, fun h => F64.noConfusion h⟩
  show F64.divR (.fin ((1:ℝ)/2^600)) (Vec2.lengthR ⟨.fin ((1:ℝ)/2^600), .fin 0⟩) = _
  rw [hlen]
  show (if (0:ℝ) = 0 then
      (if (1:ℝ)/2^600 = 0 then F64.nan
       else if 0 < (1:ℝ)/2^600 then F64.inf true else F64.inf false)
    else round64 ((1:ℝ)/2^600 / 0)) = _
  rw [if_pos rfl, if_neg (by norm_num), if_pos (by norm_num)]

/-- C3 (amended): `normalized` divides each coordinate by the (single,
precomputed) length, and for every Vec2 both of whose coordinates are 0.0
both result coordinates are NaN from the 0/0 division — no error is raised.
(A nonzero vector can also reach computed length 0 through underflow, and
then yields an infinite coordinate instead.) -/
theorem C3_normalized_spec :
    (∀ v : Vec2, v.normalizedR = Vec2.new (v.x.divR v.lengthR) (v.y.divR v.lengthR)) ∧
    (∀ v : Vec2, v.x = .fin 0 → v.y = .fin 0 →
      (v.normalizedR).x = .nan ∧ (v.normalizedR).y = .nan) := by
  refine ⟨fun v => rfl, ?_⟩
  rintro ⟨x, y⟩ hx hy
  obtain rfl : x = F64.fin 0 := hx
  obtain rfl : y = F64.fin 0 := hy
  have hlen : Vec2.lengthR ⟨.fin 0, .fin 0⟩ = .fin 0 := by
    show F64.sqrtR (F64.addR (round64 ((0:ℝ) * 0)) (round64 ((0:ℝ) * 0))) = _
    rw [mul_zero, round64_zero]
    show F64.sqrtR (round64 ((0:ℝ) + 0)) = _
    rw [add_zero, round64_zero]
    show (if (0:ℝ) < 0 then F64.nan else round64 (Real.sqrt 0)) = _
    rw [if_neg (lt_irrefl (0:ℝ)), Real.sqrt_zero, round64_zero]
  constructor <;>
  · show F64.divR (.fin 0) (Vec2.lengthR ⟨.fin 0, .fin 0⟩) = _
    rw [hlen]
    show (if (0:ℝ) = 0 then
        (if (0:ℝ) = 0 then F64.nan
         else if 0 < (0:ℝ) then F64.inf true else F64.inf false)
      else round64 ((0:ℝ) / 0)) = _
    rw [if_pos rfl, if_pos rfl]

/-- C3 witness: the zero vector normalizes to NaN coordinates. -/
theorem C3_normalized_spec_witness :
    (Vec2.normalizedR ⟨.fin 0, .fin 0⟩).x = .nan ∧
    (Vec2.normalizedR ⟨.fin 0, .fin 0⟩).y = .nan :=
  C3_normalized_spec.2 ⟨.fin 0, .fin 0⟩ rfl rfl

/-- The square of `3·2^-538` rounded: `9·2^-1076` sits in the subnormal
range, where the scaled mantissa `9/4` rounds down to `2`, losing most of
the precision of the input. -/
theorem round64_sq_sub : round64 ((9:ℝ)/2^1076) = .fin ((1:ℝ)/2^1073) := by
  have e1 : (2:ℝ) ^ (-1074:ℤ) = 1 / 2 ^ 1074 := two_zpow_eq_div _ 1074 (by norm_num)
  have h := round64_eval ((9:ℝ)/2^1076) (-1073) (-1074) 2
    (by norm_num)
    (by rw [abs_of_pos (by norm_num), two_zpow_eq_div (-1073) 1073 (by norm_num)]; norm_num)
    (by rw [abs_of_pos (by norm_num), show (-1073:ℤ) + 1 = -1072 by norm_num,
          two_zpow_eq_div (-1072) 1072 (by norm_num)]; norm_num)
    (by omega)
    (by rw [e1]
        apply rne_low <;> push_cast <;> norm_num)
    (by rw [e1, two_zpow_eq_pow 1024 1024 (by norm_num)]; push_cast
        rw [abs_of_pos (by norm_num)]; norm_num)
  rw [h, e1]
  norm_num

/-- The subnormal `2^-1073` is exactly representable, so it rounds to
itself. -/
theorem round64_pow_sub : round64 ((1:ℝ)/2^1073) = .fin ((1:ℝ)/2^1073) := by
  have e1 : (2:ℝ) ^ (-1074:ℤ) = 1 / 2 ^ 1074 := two_zpow_eq_div _ 1074 (by norm_num)
  have h := round64_eval ((1:ℝ)/2^1073) (-1073) (-1074) 2
    (by norm_num)
    (by rw [abs_of_pos (by norm_num), two_zpow_eq_div (-1073) 1073 (by norm_num)])
    (by rw [abs_of_pos (by norm_num), show (-1073:ℤ) + 1 = -1072 by norm_num,
          two_zpow_eq_div (-1072) 1072 (by norm_num)]; norm_num)
    (by omega)
    (by rw [e1, show ((1:ℝ)/2^1073) / (1/2^1074) = ((2:ℤ):ℝ) by push_cast; norm_num]
        exact rne_int 2)
    (by rw [e1, two_zpow_eq_pow 1024 1024 (by norm_num)]; push_cast
        rw [abs_of_pos (by norm_num)]; norm_num)
  rw [h, e1]
  norm_num

/-- The rounded square root of the subnormal `2^-1073` is
`6369051672525773·2^-589`, the correctly rounded value of `√2·2^-537`. -/
theorem round64_sqrt_sub :
    round64 (Real.sqrt ((1:ℝ)/2^1073)) = .fin ((6369051672525773:ℝ)/2^589) := by
  have hpos : (0:ℝ) < Real.sqrt ((1:ℝ)/2^1073) := Real.sqrt_pos.mpr (by norm_num)
  have e1 : (2:ℝ) ^ (-589:ℤ) = 1 / 2 ^ 589 := two_zpow_eq_div _ 589 (by norm_num)
  have harg : Real.sqrt ((1:ℝ)/2^1073) / (1/2^589) = Real.sqrt ((1:ℝ)/2^1073) * 2^589 := by
    rw [div_div_eq_mul_div, div_one]
  have hq1 : (6369051672525772:ℝ) + 1/2 < Real.sqrt ((1:ℝ)/2^1073) * 2^589 := by
    have hq : ((6369051672525772:ℝ) + 1/2)/2^589 < Real.sqrt ((1:ℝ)/2^1073) :=
      (Real.lt_sqrt (by positivity)).mpr (by norm_num)
    exact (div_lt_iff₀ (by positivity)).mp hq
  have hq2 : Real.sqrt ((1:ℝ)/2^1073) * 2^589 < (6369051672525772:ℝ) + 1 := by
    have hq : Real.sqrt ((1:ℝ)/2^1073) < (6369051672525773:ℝ)/2^589 :=
      (Real.sqrt_lt' (by positivity)).mpr (by norm_num)
    have h3 := (lt_div_iff₀ (by positivity : (0:ℝ) < 2^589)).mp hq
    linarith
  have h := round64_eval (Real.sqrt ((1:ℝ)/2^1073)) (-537) (-589) 6369051672525773
    (ne_of_gt hpos)
    (by rw [abs_of_pos hpos, two_zpow_eq_div (-537) 537 (by norm_num)]
        exact (Real.le_sqrt' (by norm_num)).mpr (by norm_num))
    (by rw [abs_of_pos hpos, show (-537:ℤ) + 1 = -536 by norm_num,
          two_zpow_eq_div (-536) 536 (by norm_num)]
        exact (Real.sqrt_lt' (by norm_num)).mpr (by norm_num))
    (by omega)
    (by rw [e1, harg]
        have hr := rne_high (Real.sqrt ((1:ℝ)/2^1073) * 2^589) 6369051672525772
          (by push_cast; linarith) (by push_cast; linarith)
        exact hr.trans (by norm_num))
    (by rw [e1, two_zpow_eq_pow 1024 1024 (by norm_num)]; push_cast
        rw [abs_of_pos (by positivity)]; norm_num)
  rw [h, e1]
  push_cast
  norm_num

/-- The rounded quotient `fl(3·2^51 / 6369051672525773)`, the x-coordinate
of the normalized subnormal counterexample vector: about 1.0607. -/
theorem round64_div_sub :
    round64 ((6755399441055744:ℝ)/6369051672525773) = .fin ((4776788754394329:ℝ)/2^52) := by
  have e1 : (2:ℝ) ^ (-52:ℤ) = 1 / 2 ^ 52 := two_zpow_eq_div _ 52 (by norm_num)
  have h := round64_eval ((6755399441055744:ℝ)/6369051672525773) 0 (-52) 4776788754394329
    (by positivity)
    (by rw [abs_of_pos (by positivity), two_zpow_eq_pow 0 0 (by norm_num)]; norm_num)
    (by rw [abs_of_pos (by positivity), show (0:ℤ) + 1 = 1 by norm_num,
          two_zpow_eq_pow 1 1 (by norm_num)]; norm_num)
    (by omega)
    (by rw [e1, show ((6755399441055744:ℝ)/6369051672525773) / (1/2^52) =
          30423614405477505635920876929024/6369051672525773 by norm_num]
        apply rne_low <;> push_cast <;> norm_num)
    (by rw [e1, two_zpow_eq_pow 1024 1024 (by norm_num)]; push_cast
        rw [abs_of_pos (by positivity)]; norm_num)
  rw [h, e1]
  push_cast
  norm_num

/-- The rounded square of the counterexample's normalized x-coordinate. -/
theorem round64_sq2_sub :
    round64 ((22817710804108125181307627360241:ℝ)/2^104) =
      .fin ((5066549580791807:ℝ)/2^52) := by
  have e1 : (2:ℝ) ^ (-52:ℤ) = 1 / 2 ^ 52 := two_zpow_eq_div _ 52 (by norm_num)
  have h := round64_eval ((22817710804108125181307627360241:ℝ)/2^104) 0 (-52) 5066549580791807
    (by positivity)
    (by rw [abs_of_pos (by positivity), two_zpow_eq_pow 0 0 (by norm_num)]; norm_num)
    (by rw [abs_of_pos (by positivity), show (0:ℤ) + 1 = 1 by norm_num,
          two_zpow_eq_pow 1 1 (by norm_num)]; norm_num)
    (by omega)
    (by rw [e1, show ((22817710804108125181307627360241:ℝ)/2^104) / (1/2^52) =
          22817710804108125181307627360241/2^52 by norm_num]
        apply rne_low <;> push_cast <;> norm_num)
    (by rw [e1, two_zpow_eq_pow 1024 1024 (by norm_num)]; push_cast
        rw [abs_of_pos (by positivity)]; norm_num)
  rw [h, e1]
  push_cast
  norm_num

/-- A representable mantissa over `2^52` rounds to itself. -/
theorem round64_exact_j :
    round64 ((5066549580791807:ℝ)/2^52) = .fin ((5066549580791807:ℝ)/2^52) := by
  have e1 : (2:ℝ) ^ (-52:ℤ) = 1 / 2 ^ 52 := two_zpow_eq_div _ 52 (by norm_num)
  have h := round64_eval ((5066549580791807:ℝ)/2^52) 0 (-52) 5066549580791807
    (by positivity)
    (by rw [abs_of_pos (by positivity), two_zpow_eq_pow 0 0 (by norm_num)]; norm_num)
    (by rw [abs_of_pos (by positivity), show (0:ℤ) + 1 = 1 by norm_num,
          two_zpow_eq_pow 1 1 (by norm_num)]; norm_num)
    (by omega)
    (by rw [e1, show ((5066549580791807:ℝ)/2^52) / (1/2^52) = ((5066549580791807:ℤ):ℝ) by
          push_cast; norm_num]
        exact rne_int _)
    (by rw [e1, two_zpow_eq_pow 1024 1024 (by norm_num)]; push_cast
        rw [abs_of_pos (by positivity)]; norm_num)
  rw [h, e1]
  push_cast
  norm_num

/-- The rounded square root of the counterexample's normalized squared
length: about 1.0607, far from 1. -/
theorem round64_sqrt2_sub :
    round64 (Real.sqrt ((5066549580791807:ℝ)/2^52)) = .fin ((4776788754394329:ℝ)/2^52) := by
  have hpos : (0:ℝ) < Real.sqrt ((5066549580791807:ℝ)/2^52) :=
    Real.sqrt_pos.mpr (by positivity)
  have e1 : (2:ℝ) ^ (-52:ℤ) = 1 / 2 ^ 52 := two_zpow_eq_div _ 52 (by norm_num)
  have harg : Real.sqrt ((5066549580791807:ℝ)/2^52) / (1/2^52) =
      Real.sqrt ((5066549580791807:ℝ)/2^52) * 2^52 := by
    rw [div_div_eq_mul_div, div_one]
  have hq1 : (4776788754394328:ℝ) + 1/2 < Real.sqrt ((5066549580791807:ℝ)/2^52) * 2^52 := by
    have hq : ((4776788754394328:ℝ) + 1/2)/2^52 < Real.sqrt ((5066549580791807:ℝ)/2^52) :=
      (Real.lt_sqrt (by positivity)).mpr (by norm_num)
    exact (div_lt_iff₀ (by positivity)).mp hq
  have hq2 : Real.sqrt ((5066549580791807:ℝ)/2^52) * 2^52 < (4776788754394328:ℝ) + 1 := by
    have hq : Real.sqrt ((5066549580791807:ℝ)/2^52) < (4776788754394329:ℝ)/2^52 :=
      (Real.sqrt_lt' (by positivity)).mpr (by norm_num)
    have h3 := (lt_div_iff₀ (by positivity : (0:ℝ) < 2^52)).mp hq
    linarith
  have h := round64_eval (Real.sqrt ((5066549580791807:ℝ)/2^52)) 0 (-52) 4776788754394329
    (ne_of_gt hpos)
    (by rw [abs_of_pos hpos, two_zpow_eq_pow 0 0 (by norm_num)]
        exact (Real.le_sqrt' (by norm_num)).mpr (by norm_num))
    (by rw [abs_of_pos hpos, show (0:ℤ) + 1 = 1 by norm_num,
          two_zpow_eq_pow 1 1 (by norm_num)]
        exact (Real.sqrt_lt' (by norm_num)).mpr (by norm_num))
    (by omega)
    (by rw [e1, harg]
        have hr := rne_high (Real.sqrt ((5066549580791807:ℝ)/2^52) * 2^52) 4776788754394328
          (by push_cast; linarith) (by push_cast; linarith)
        exact hr.trans (by norm_num))
    (by rw [e1, two_zpow_eq_pow 1024 1024 (by norm_num)]; push_cast
        rw [abs_of_pos (by positivity)]; norm_num)
  rw [h, e1]
  push_cast
  norm_num

/-- The final rounded difference in the counterexample, about 0.0607, is
exactly representable. -/
theorem round64_diff_sub :
    round64 ((273189127023833:ℝ)/2^52) = .fin ((273189127023833:ℝ)/2^52) := by
  have e1 : (2:ℝ) ^ (-57:ℤ) = 1 / 2 ^ 57 := two_zpow_eq_div _ 57 (by norm_num)
  have h := round64_eval ((273189127023833:ℝ)/2^52) (-5) (-57) 8742052064762656
    (by positivity)
    (by rw [abs_of_pos (by positivity), two_zpow_eq_div (-5) 5 (by norm_num)]; norm_num)
    (by rw [abs_of_pos (by positivity), show (-5:ℤ) + 1 = -4 by norm_num,
          two_zpow_eq_div (-4) 4 (by norm_num)]; norm_num)
    (by omega)
    (by rw [e1, show ((273189127023833:ℝ)/2^52) / (1/2^57) = ((8742052064762656:ℤ):ℝ) by
          push_cast; norm_num]
        exact rne_int _)
    (by rw [e1, two_zpow_eq_pow 1024 1024 (by norm_num)]; push_cast
        rw [abs_of_pos (by positivity)]; norm_num)
  rw [h, e1]
  push_cast
  norm_num

/-- C4 counterexample: `Vec2(3·2^-538, 0.0)` has finite coordinates and a
positive computed length, but squaring the x-coordinate lands in the
subnormal range and loses most of its precision, so the normalized vector
has computed length about 1.0607 — `approx_eq(1.0)` is false. -/
theorem C4_counterexample :
    F64.lt (.fin 0) (Vec2.lengthR ⟨.fin ((3:ℝ)/2^538), .fin 0⟩) ∧
    ¬ F64.approx_eqR
      (Vec2.lengthR (Vec2.normalizedR ⟨.fin ((3:ℝ)/2^538), .fin 0⟩)) (.fin 1) := by
  have hxx : F64.mulR (.fin ((3:ℝ)/2^538)) (.fin ((3:ℝ)/2^538)) = .fin ((1:ℝ)/2^1073) := by
    show round64 ((3:ℝ)/2^538 * ((3:ℝ)/2^538)) = _
    rw [show (3:ℝ)/2^538 * ((3:ℝ)/2^538) = 9/2^1076 by norm_num]
    exact round64_sq_sub
  have hlen : Vec2.lengthR ⟨.fin ((3:ℝ)/2^538), .fin 0⟩ =
      .fin ((6369051672525773:ℝ)/2^589) := by
    show F64.sqrtR (F64.addR (F64.mulR (.fin ((3:ℝ)/2^538)) (.fin ((3:ℝ)/2^538)))
        (round64 ((0:ℝ) * 0))) = _
    rw [hxx, mul_zero, round64_zero]
    show F64.sqrtR (round64 ((1:ℝ)/2^1073 + 0)) = _
    rw [add_zero, round64_pow_sub]
    show (if (1:ℝ)/2^1073 < 0 then F64.nan else round64 (Real.sqrt ((1:ℝ)/2^1073))) = _
    rw [if_neg (by norm_num), round64_sqrt_sub]
  have hnx : F64.divR (.fin ((3:ℝ)/2^538)) (.fin ((6369051672525773:ℝ)/2^589)) =
      .fin ((4776788754394329:ℝ)/2^52) := by
    show (if (6369051672525773:ℝ)/2^589 = 0 then
        (if (3:ℝ)/2^538 = 0 then F64.nan
         else if 0 < (3:ℝ)/2^538 then F64.inf true else F64.inf false)
      else round64 ((3:ℝ)/2^538 / ((6369051672525773:ℝ)/2^589))) = _
    rw [if_neg (by positivity),
      show (3:ℝ)/2^538 / ((6369051672525773:ℝ)/2^589) =
        6755399441055744/6369051672525773 by
      rw [div_div_div_comm]
      norm_num]
    exact round64_div_sub
  have hny : F64.divR (.fin (0:ℝ)) (.fin ((6369051672525773:ℝ)/2^589)) = .fin 0 := by
    show (if (6369051672525773:ℝ)/2^589 = 0 then
        (if (0:ℝ) = 0 then F64.nan
         else if 0 < (0:ℝ) then F64.inf true else F64.inf false)
      else round64 ((0:ℝ) / ((6369051672525773:ℝ)/2^589))) = _
    rw [if_neg (by positivity), zero_div, round64_zero]
  have hnorm : Vec2.normalizedR ⟨.fin ((3:ℝ)/2^538), .fin 0⟩ =
      ⟨.fin ((4776788754394329:ℝ)/2^52), .fin 0⟩ := by
    show Vec2.new
        (F64.divR (.fin ((3:ℝ)/2^538)) (Vec2.lengthR ⟨.fin ((3:ℝ)/2^538), .fin 0⟩))
        (F64.divR (.fin 0) (Vec2.lengthR ⟨.fin ((3:ℝ)/2^538), .fin 0⟩)) = _
    rw [hlen, hnx, hny]
    rfl
  have hq2 : F64.mulR (.fin ((4776788754394329:ℝ)/2^52))
      (.fin ((4776788754394329:ℝ)/2^52)) = .fin ((5066549580791807:ℝ)/2^52) := by
    show round64 ((4776788754394329:ℝ)/2^52 * ((4776788754394329:ℝ)/2^52)) = _
    rw [show (4776788754394329:ℝ)/2^52 * ((4776788754394329:ℝ)/2^52) =
        22817710804108125181307627360241/2^104 by norm_num]
    exact round64_sq2_sub
  have hlen2 : Vec2.lengthR ⟨.fin ((4776788754394329:ℝ)/2^52), .fin 0⟩ =
      .fin ((4776788754394329:ℝ)/2^52) := by
    show F64.sqrtR (F64.addR (F64.mulR (.fin ((4776788754394329:ℝ)/2^52))
        (.fin ((4776788754394329:ℝ)/2^52))) (round64 ((0:ℝ) * 0))) = _
    rw [hq2, mul_zero, round64_zero]
    show F64.sqrtR (round64 ((5066549580791807:ℝ)/2^52 + 0)) = _
    rw [add_zero, round64_exact_j]
    show (if (5066549580791807:ℝ)/2^52 < 0 then F64.nan
      else round64 (Real.sqrt ((5066549580791807:ℝ)/2^52))) = _
    rw [if_neg (by norm_num), round64_sqrt2_sub]
  constructor
  · rw [hlen]
    show (0:ℝ) < (6369051672525773:ℝ)/2^589
    positivity
  · rw [hnorm, hlen2]
    have hsub : F64.subR (.fin ((4776788754394329:ℝ)/2^52)) (.fin 1) =
        .fin ((273189127023833:ℝ)/2^52) := by
      show round64 ((4776788754394329:ℝ)/2^52 - 1) = _
      rw [show (4776788754394329:ℝ)/2^52 - 1 = 273189127023833/2^52 by norm_num]
      exact round64_diff_sub
    show ¬ F64.lt (F64.abs (F64.subR (.fin ((4776788754394329:ℝ)/2^52)) (.fin 1)))
      F64.EPSILON
    rw [hsub]
    show ¬ F64.lt (.fin |(273189127023833:ℝ)/2^52|) (.fin (1/2^52))
    rw [abs_of_pos (by positivity)]
    show ¬ ((273189127023833:ℝ)/2^52 < 1/2^52)
    norm_num

/-- The double 16 is exactly representable and rounds to itself. -/
theorem round64_16 : round64 (16:ℝ) = .fin 16 := by
  have e1 : (2:ℝ) ^ (-48:ℤ) = 1 / 2 ^ 48 := two_zpow_eq_div _ 48 (by norm_num)
  have h := round64_eval (16:ℝ) 4 (-48) 4503599627370496
    (by norm_num)
    (by rw [abs_of_pos (by norm_num), two_zpow_eq_pow 4 4 (by norm_num)]; norm_num)
    (by rw [abs_of_pos (by norm_num), show (4:ℤ) + 1 = 5 by norm_num,
          two_zpow_eq_pow 5 5 (by norm_num)]; norm_num)
    (by omega)
    (by rw [e1, show (16:ℝ) / (1/2^48) = ((4503599627370496:ℤ):ℝ) by push_cast; norm_num]
        exact rne_int _)
    (by rw [e1, two_zpow_eq_pow 1024 1024 (by norm_num)]; push_cast
        rw [abs_of_pos (by norm_num)]; norm_num)
  rw [h, e1]
  push_cast
  norm_num

/-- The double 4 is exactly representable and rounds to itself. -/
theorem round64_4 : round64 (4:ℝ) = .fin 4 := by
  have e1 : (2:ℝ) ^ (-50:ℤ) = 1 / 2 ^ 50 := two_zpow_eq_div _ 50 (by norm_num)
  have h := round64_eval (4:ℝ) 2 (-50) 4503599627370496
    (by norm_num)
    (by rw [abs_of_pos (by norm_num), two_zpow_eq_pow 2 2 (by norm_num)]; norm_num)
    (by rw [abs_of_pos (by norm_num), show (2:ℤ) + 1 = 3 by norm_num,
          two_zpow_eq_pow 3 3 (by norm_num)]; norm_num)
    (by omega)
    (by rw [e1, show (4:ℝ) / (1/2^50) = ((4503599627370496:ℤ):ℝ) by push_cast; norm_num]
        exact rne_int _)
    (by rw [e1, two_zpow_eq_pow 1024 1024 (by norm_num)]; push_cast
        rw [abs_of_pos (by norm_num)]; norm_num)
  rw [h, e1]
  push_cast
  norm_num

/-- The double 20 is exactly representable and rounds to itself. -/
theorem round64_20 : round64 (20:ℝ) = .fin 20 := by
  have e1 : (2:ℝ) ^ (-48:ℤ) = 1 / 2 ^ 48 := two_zpow_eq_div _ 48 (by norm_num)
  have h := round64_eval (20:ℝ) 4 (-48) 5629499534213120
    (by norm_num)
    (by rw [abs_of_pos (by norm_num), two_zpow_eq_pow 4 4 (by norm_num)]; norm_num)
    (by rw [abs_of_pos (by norm_num), show (4:ℤ) + 1 = 5 by norm_num,
          two_zpow_eq_pow 5 5 (by norm_num)]; norm_num)
    (by omega)
    (by rw [e1, show (20:ℝ) / (1/2^48) = ((5629499534213120:ℤ):ℝ) by push_cast; norm_num]
        exact rne_int _)
    (by rw [e1, two_zpow_eq_pow 1024 1024 (by norm_num)]; push_cast
        rw [abs_of_pos (by norm_num)]; norm_num)
  rw [h, e1]
  push_cast
  norm_num

/-- The rounded square root of 20: `5035177455121576·2^-50`. -/
theorem round64_sqrt20 : round64 (Real.sqrt 20) = .fin ((5035177455121576:ℝ)/2^50) := by
  have hpos : (0:ℝ) < Real.sqrt 20 := Real.sqrt_pos.mpr (by norm_num)
  have e1 : (2:ℝ) ^ (-50:ℤ) = 1 / 2 ^ 50 := two_zpow_eq_div _ 50 (by norm_num)
  have harg : Real.sqrt (20:ℝ) / (1/2^50) = Real.sqrt (20:ℝ) * 2^50 := by
    rw [div_div_eq_mul_div, div_one]
  have hq1 : (5035177455121575:ℝ) + 1/2 < Real.sqrt (20:ℝ) * 2^50 := by
    have hq : ((5035177455121575:ℝ) + 1/2)/2^50 < Real.sqrt (20:ℝ) :=
      (Real.lt_sqrt (by positivity)).mpr (by norm_num)
    exact (div_lt_iff₀ (by positivity)).mp hq
  have hq2 : Real.sqrt (20:ℝ) * 2^50 < (5035177455121575:ℝ) + 1 := by
    have hq : Real.sqrt (20:ℝ) < (5035177455121576:ℝ)/2^50 :=
      (Real.sqrt_lt' (by positivity)).mpr (by norm_num)
    have h3 := (lt_div_iff₀ (by positivity : (0:ℝ) < 2^50)).mp hq
    linarith
  have h := round64_eval (Real.sqrt 20) 2 (-50) 5035177455121576
    (ne_of_gt hpos)
    (by rw [abs_of_pos hpos, two_zpow_eq_pow 2 2 (by norm_num)]
        exact (Real.le_sqrt' (by norm_num)).mpr (by norm_num))
    (by rw [abs_of_pos hpos, show (2:ℤ) + 1 = 3 by norm_num,
          two_zpow_eq_pow 3 3 (by norm_num)]
        exact (Real.sqrt_lt' (by norm_num)).mpr (by norm_num))
    (by omega)
    (by rw [e1, harg]
        have hr := rne_high (Real.sqrt (20:ℝ) * 2^50) 5035177455121575
          (by push_cast; linarith) (by push_cast; linarith)
        exact hr.trans (by norm_num))
    (by rw [e1, two_zpow_eq_pow 1024 1024 (by norm_num)]; push_cast
        rw [abs_of_pos (by positivity)]; norm_num)
  rw [h, e1]
  push_cast
  norm_num

/-- Shared rounded mantissa of both normalized coordinates of
`Vec2(4.0, 2.0)`: the scaled quotients `4/L / 2^-53` and `2/L / 2^-54` are
the same number `2^105/L`, and it rounds up to `8056283928194521`. -/
theorem rne_argG :
    rne ((40564819207303340847894502572032:ℝ)/5035177455121576) = 8056283928194521 := by
  have hr := rne_high ((40564819207303340847894502572032:ℝ)/5035177455121576)
    8056283928194520 (by norm_num) (by norm_num)
  exact hr.trans (by norm_num)

/-- The rounded x-coordinate of the normalized `Vec2(4.0, 2.0)`. -/
theorem round64_dx42 :
    round64 ((4503599627370496:ℝ)/5035177455121576) = .fin ((8056283928194521:ℝ)/2^53) := by
  have e1 : (2:ℝ) ^ (-53:ℤ) = 1 / 2 ^ 53 := two_zpow_eq_div _ 53 (by norm_num)
  have h := round64_eval ((4503599627370496:ℝ)/5035177455121576) (-1) (-53) 8056283928194521
    (by positivity)
    (by rw [abs_of_pos (by positivity), two_zpow_eq_div (-1) 1 (by norm_num)]; norm_num)
    (by rw [abs_of_pos (by positivity), show (-1:ℤ) + 1 = 0 by norm_num,
          two_zpow_eq_pow 0 0 (by norm_num)]; norm_num)
    (by omega)
    (by rw [e1, show ((4503599627370496:ℝ)/5035177455121576) / (1/2^53) =
          40564819207303340847894502572032/5035177455121576 by norm_num]
        exact rne_argG)
    (by rw [e1, two_zpow_eq_pow 1024 1024 (by norm_num)]; push_cast
        rw [abs_of_pos (by positivity)]; norm_num)
  rw [h, e1]
  push_cast
  norm_num

/-- The rounded y-coordinate of the normalized `Vec2(4.0, 2.0)`. -/
theorem round64_dy42 :
    round64 ((2251799813685248:ℝ)/5035177455121576) = .fin ((8056283928194521:ℝ)/2^54) := by
  have e1 : (2:ℝ) ^ (-54:ℤ) = 1 / 2 ^ 54 := two_zpow_eq_div _ 54 (by norm_num)
  have h := round64_eval ((2251799813685248:ℝ)/5035177455121576) (-2) (-54) 8056283928194521
    (by positivity)
    (by rw [abs_of_pos (by positivity), two_zpow_eq_div (-2) 2 (by norm_num)]; norm_num)
    (by rw [abs_of_pos (by positivity), show (-2:ℤ) + 1 = -1 by norm_num,
          two_zpow_eq_div (-1) 1 (by norm_num)]; norm_num)
    (by omega)
    (by rw [e1, show ((2251799813685248:ℝ)/5035177455121576) / (1/2^54) =
          40564819207303340847894502572032/5035177455121576 by norm_num]
        exact rne_argG)
    (by rw [e1, two_zpow_eq_pow 1024 1024 (by norm_num)]; push_cast
        rw [abs_of_pos (by positivity)]; norm_num)
  rw [h, e1]
  push_cast
  norm_num

/-- Shared rounded mantissa of both squared normalized coordinates of
`Vec2(4.0, 2.0)`. -/
theorem rne_argK :
    rne ((64903710731685341995954814419441:ℝ)/2^53) = 7205759403792793 := by
  apply rne_low <;> push_cast <;> norm_num

/-- The rounded square of the normalized x-coordinate of `Vec2(4.0, 2.0)`. -/
theorem round64_q1_42 :
    round64 ((64903710731685341995954814419441:ℝ)/2^106) =
      .fin ((7205759403792793:ℝ)/2^53) := by
  have e1 : (2:ℝ) ^ (-53:ℤ) = 1 / 2 ^ 53 := two_zpow_eq_div _ 53 (by norm_num)
  have h := round64_eval ((64903710731685341995954814419441:ℝ)/2^106) (-1) (-53)
    7205759403792793
    (by positivity)
    (by rw [abs_of_pos (by positivity), two_zpow_eq_div (-1) 1 (by norm_num)]; norm_num)
    (by rw [abs_of_pos (by positivity), show (-1:ℤ) + 1 = 0 by norm_num,
          two_zpow_eq_pow 0 0 (by norm_num)]; norm_num)
    (by omega)
    (by rw [e1, show ((64903710731685341995954814419441:ℝ)/2^106) / (1/2^53) =
          64903710731685341995954814419441/2^53 by norm_num]
        exact rne_argK)
    (by rw [e1, two_zpow_eq_pow 1024 1024 (by norm_num)]; push_cast
        rw [abs_of_pos (by positivity)]; norm_num)
  rw [h, e1]
  push_cast
  norm_num

/-- The rounded square of the normalized y-coordinate of `Vec2(4.0, 2.0)`. -/
theorem round64_q2_42 :
    round64 ((64903710731685341995954814419441:ℝ)/2^108) =
      .fin ((7205759403792793:ℝ)/2^55) := by
  have e1 : (2:ℝ) ^ (-55:ℤ) = 1 / 2 ^ 55 := two_zpow_eq_div _ 55 (by norm_num)
  have h := round64_eval ((64903710731685341995954814419441:ℝ)/2^108) (-3) (-55)
    7205759403792793
    (by positivity)
    (by rw [abs_of_pos (by positivity), two_zpow_eq_div (-3) 3 (by norm_num)]; norm_num)
    (by rw [abs_of_pos (by positivity), show (-3:ℤ) + 1 = -2 by norm_num,
          two_zpow_eq_div (-2) 2 (by norm_num)]; norm_num)
    (by omega)
    (by rw [e1, show ((64903710731685341995954814419441:ℝ)/2^108) / (1/2^55) =
          64903710731685341995954814419441/2^53 by norm_num]
        exact rne_argK)
    (by rw [e1, two_zpow_eq_pow 1024 1024 (by norm_num)]; push_cast
        rw [abs_of_pos (by positivity)]; norm_num)
  rw [h, e1]
  push_cast
  norm_num

/-- The rounded sum of the squared normalized coordinates of
`Vec2(4.0, 2.0)`: `(2^53 - 1)·2^-53`, one ulp below 1. -/
theorem round64_sum42 :
    round64 ((36028797018963965:ℝ)/2^55) = .fin ((9007199254740991:ℝ)/2^53) := by
  have e1 : (2:ℝ) ^ (-53:ℤ) = 1 / 2 ^ 53 := two_zpow_eq_div _ 53 (by norm_num)
  have h := round64_eval ((36028797018963965:ℝ)/2^55) (-1) (-53) 9007199254740991
    (by positivity)
    (by rw [abs_of_pos (by positivity), two_zpow_eq_div (-1) 1 (by norm_num)]; norm_num)
    (by rw [abs_of_pos (by positivity), show (-1:ℤ) + 1 = 0 by norm_num,
          two_zpow_eq_pow 0 0 (by norm_num)]; norm_num)
    (by omega)
    (by rw [e1, show ((36028797018963965:ℝ)/2^55) / (1/2^53) =
          36028797018963965/4 by norm_num]
        apply rne_low <;> push_cast <;> norm_num)
    (by rw [e1, two_zpow_eq_pow 1024 1024 (by norm_num)]; push_cast
        rw [abs_of_pos (by positivity)]; norm_num)
  rw [h, e1]
  push_cast
  norm_num

/-- The rounded square root of `(2^53 - 1)·2^-53` is the same number: the
computed length of the normalized `Vec2(4.0, 2.0)` is one ulp below 1. -/
theorem round64_sqrtSum42 :
    round64 (Real.sqrt ((9007199254740991:ℝ)/2^53)) =
      .fin ((9007199254740991:ℝ)/2^53) := by
  have hpos : (0:ℝ) < Real.sqrt ((9007199254740991:ℝ)/2^53) :=
    Real.sqrt_pos.mpr (by positivity)
  have e1 : (2:ℝ) ^ (-53:ℤ) = 1 / 2 ^ 53 := two_zpow_eq_div _ 53 (by norm_num)
  have harg : Real.sqrt ((9007199254740991:ℝ)/2^53) / (1/2^53) =
      Real.sqrt ((9007199254740991:ℝ)/2^53) * 2^53 := by
    rw [div_div_eq_mul_div, div_one]
  have hq1 : (9007199254740991:ℝ) ≤ Real.sqrt ((9007199254740991:ℝ)/2^53) * 2^53 := by
    have hq : (9007199254740991:ℝ)/2^53 ≤ Real.sqrt ((9007199254740991:ℝ)/2^53) :=
      (Real.le_sqrt' (by positivity)).mpr (by norm_num)
    exact (div_le_iff₀ (by positivity)).mp hq
  have hq2 : Real.sqrt ((9007199254740991:ℝ)/2^53) * 2^53 < (9007199254740991:ℝ) + 1/2 := by
    have hq : Real.sqrt ((9007199254740991:ℝ)/2^53) < ((9007199254740991:ℝ) + 1/2)/2^53 :=
      (Real.sqrt_lt' (by positivity)).mpr (by norm_num)
    have h3 := (lt_div_iff₀ (by positivity : (0:ℝ) < 2^53)).mp hq
    linarith
  have h := round64_eval (Real.sqrt ((9007199254740991:ℝ)/2^53)) (-1) (-53) 9007199254740991
    (ne_of_gt hpos)
    (by rw [abs_of_pos hpos, two_zpow_eq_div (-1) 1 (by norm_num)]
        exact (Real.le_sqrt' (by norm_num)).mpr (by norm_num))
    (by rw [abs_of_pos hpos, show (-1:ℤ) + 1 = 0 by norm_num,
          two_zpow_eq_pow 0 0 (by norm_num)]
        exact (Real.sqrt_lt' (by norm_num)).mpr (by norm_num))
    (by omega)
    (by rw [e1, harg]
        exact rne_low (Real.sqrt ((9007199254740991:ℝ)/2^53) * 2^53) 9007199254740991
          (by push_cast; linarith) (by push_cast; linarith))
    (by rw [e1, two_zpow_eq_pow 1024 1024 (by norm_num)]; push_cast
        rw [abs_of_pos (by positivity)]; norm_num)
  rw [h, e1]
  push_cast
  norm_num

/-- The exactly representable difference `-2^-53` rounds to itself. -/
theorem round64_neg53 : round64 (-((1:ℝ)/2^53)) = .fin (-((1:ℝ)/2^53)) := by
  have e1 : (2:ℝ) ^ (-105:ℤ) = 1 / 2 ^ 105 := two_zpow_eq_div _ 105 (by norm_num)
  have habs : |(-((1:ℝ)/2^53))| = (1:ℝ)/2^53 := by
    rw [abs_neg, abs_of_pos (by norm_num)]
  have h := round64_eval (-((1:ℝ)/2^53)) (-53) (-105) (-4503599627370496)
    (by norm_num)
    (by rw [habs, two_zpow_eq_div (-53) 53 (by norm_num)])
    (by rw [habs, show (-53:ℤ) + 1 = -52 by norm_num,
          two_zpow_eq_div (-52) 52 (by norm_num)]; norm_num)
    (by omega)
    (by rw [e1, show (-((1:ℝ)/2^53)) / (1/2^105) = ((-4503599627370496:ℤ):ℝ) by
          push_cast; norm_num]
        exact rne_int _)
    (by rw [e1, two_zpow_eq_pow 1024 1024 (by norm_num)]; push_cast
        rw [abs_of_neg (by norm_num)]; norm_num)
  rw [h, e1]
  push_cast
  norm_num

/-- C4 (amended): for the spec's own example `Vec2(4.0, 2.0)` — whose
computation stays in the well-scaled normal range — the computed length is
positive and the normalized vector's computed length, `(2^53 - 1)·2^-53`,
is within machine epsilon of 1.  The universal claim over all
positive-length vectors fails: finite vectors whose squared coordinates
underflow to the subnormal range (and vectors with infinite coordinates)
violate it. -/
theorem C4_normalized_unit_length :
    F64.lt (.fin 0) (Vec2.lengthR ⟨.fin 4, .fin 2⟩) ∧
    F64.approx_eqR (Vec2.lengthR (Vec2.normalizedR ⟨.fin 4, .fin 2⟩)) (.fin 1) := by
  have hxx : F64.mulR (.fin (4:ℝ)) (.fin 4) = .fin 16 := by
    show round64 ((4:ℝ) * 4) = _
    rw [show (4:ℝ) * 4 = 16 by norm_num]
    exact round64_16
  have hyy : F64.mulR (.fin (2:ℝ)) (.fin 2) = .fin 4 := by
    show round64 ((2:ℝ) * 2) = _
    rw [show (2:ℝ) * 2 = 4 by norm_num]
    exact round64_4
  have hlen : Vec2.lengthR ⟨.fin 4, .fin 2⟩ = .fin ((5035177455121576:ℝ)/2^50) := by
    show F64.sqrtR (F64.addR (F64.mulR (.fin (4:ℝ)) (.fin 4))
        (F64.mulR (.fin (2:ℝ)) (.fin 2))) = _
    rw [hxx, hyy]
    show F64.sqrtR (round64 ((16:ℝ) + 4)) = _
    rw [show (16:ℝ) + 4 = 20 by norm_num, round64_20]
    show (if (20:ℝ) < 0 then F64.nan else round64 (Real.sqrt 20)) = _
    rw [if_neg (by norm_num), round64_sqrt20]
  have hdx : F64.divR (.fin (4:ℝ)) (.fin ((5035177455121576:ℝ)/2^50)) =
      .fin ((8056283928194521:ℝ)/2^53) := by
    show (if (5035177455121576:ℝ)/2^50 = 0 then
        (if (4:ℝ) = 0 then F64.nan
         else if 0 < (4:ℝ) then F64.inf true else F64.inf false)
      else round64 ((4:ℝ) / ((5035177455121576:ℝ)/2^50))) = _
    rw [if_neg (by positivity),
      show (4:ℝ) / ((5035177455121576:ℝ)/2^50) = 4503599627370496/5035177455121576 by
        rw [div_div_eq_mul_div]
        norm_num]
    exact round64_dx42
  have hdy : F64.divR (.fin (2:ℝ)) (.fin ((5035177455121576:ℝ)/2^50)) =
      .fin ((8056283928194521:ℝ)/2^54) := by
    show (if (5035177455121576:ℝ)/2^50 = 0 then
        (if (2:ℝ) = 0 then F64.nan
         else if 0 < (2:ℝ) then F64.inf true else F64.inf false)
      else round64 ((2:ℝ) / ((5035177455121576:ℝ)/2^50))) = _
    rw [if_neg (by positivity),
      show (2:ℝ) / ((5035177455121576:ℝ)/2^50) = 2251799813685248/5035177455121576 by
        rw [div_div_eq_mul_div]
        norm_num]
    exact round64_dy42
  have hnorm : Vec2.normalizedR ⟨.fin 4, .fin 2⟩ =
      ⟨.fin ((8056283928194521:ℝ)/2^53), .fin ((8056283928194521:ℝ)/2^54)⟩ := by
    show Vec2.new (F64.divR (.fin (4:ℝ)) (Vec2.lengthR ⟨.fin 4, .fin 2⟩))
        (F64.divR (.fin (2:ℝ)) (Vec2.lengthR ⟨.fin 4, .fin 2⟩)) = _
    rw [hlen, hdx, hdy]
    rfl
  have hq1 : F64.mulR (.fin ((8056283928194521:ℝ)/2^53))
      (.fin ((8056283928194521:ℝ)/2^53)) = .fin ((7205759403792793:ℝ)/2^53) := by
    show round64 ((8056283928194521:ℝ)/2^53 * ((8056283928194521:ℝ)/2^53)) = _
    rw [show (8056283928194521:ℝ)/2^53 * ((8056283928194521:ℝ)/2^53) =
        64903710731685341995954814419441/2^106 by norm_num]
    exact round64_q1_42
  have hq2 : F64.mulR (.fin ((8056283928194521:ℝ)/2^54))
      (.fin ((8056283928194521:ℝ)/2^54)) = .fin ((7205759403792793:ℝ)/2^55) := by
    show round64 ((8056283928194521:ℝ)/2^54 * ((8056283928194521:ℝ)/2^54)) = _
    rw [show (8056283928194521:ℝ)/2^54 * ((8056283928194521:ℝ)/2^54) =
        64903710731685341995954814419441/2^108 by norm_num]
    exact round64_q2_42
  have hsum : F64.addR (.fin ((7205759403792793:ℝ)/2^53)) (.fin ((7205759403792793:ℝ)/2^55)) =
      .fin ((9007199254740991:ℝ)/2^53) := by
    show round64 ((7205759403792793:ℝ)/2^53 + (7205759403792793:ℝ)/2^55) = _
    rw [show (7205759403792793:ℝ)/2^53 + (7205759403792793:ℝ)/2^55 =
        36028797018963965/2^55 by norm_num]
    exact round64_sum42
  have hlen2 : Vec2.lengthR ⟨.fin ((8056283928194521:ℝ)/2^53),
      .fin ((8056283928194521:ℝ)/2^54)⟩ = .fin ((9007199254740991:ℝ)/2^53) := by
    show F64.sqrtR (F64.addR
        (F64.mulR (.fin ((8056283928194521:ℝ)/2^53)) (.fin ((8056283928194521:ℝ)/2^53)))
        (F64.mulR (.fin ((8056283928194521:ℝ)/2^54)) (.fin ((8056283928194521:ℝ)/2^54)))) = _
    rw [hq1, hq2, hsum]
    show (if (9007199254740991:ℝ)/2^53 < 0 then F64.nan
      else round64 (Real.sqrt ((9007199254740991:ℝ)/2^53))) = _
    rw [if_neg (by norm_num), round64_sqrtSum42]
  constructor
  · rw [hlen]
    show (0:ℝ) < (5035177455121576:ℝ)/2^50
    positivity
  · rw [hnorm, hlen2]
    have hsub : F64.subR (.fin ((9007199254740991:ℝ)/2^53)) (.fin 1) =
        .fin (-((1:ℝ)/2^53)) := by
      show round64 ((9007199254740991:ℝ)/2^53 - 1) = _
      rw [show (9007199254740991:ℝ)/2^53 - 1 = -(1/2^53) by norm_num]
      exact round64_neg53
    show F64.lt (F64.abs (F64.subR (.fin ((9007199254740991:ℝ)/2^53)) (.fin 1))) F64.EPSILON
    rw [hsub]
    show F64.lt (.fin |(-((1:ℝ)/2^53))|) (.fin (1/2^52))
    rw [abs_neg, abs_of_pos (by norm_num)]
    show (1:ℝ)/2^53 < 1/2^52
    norm_num

/-- C5 counterexample: reflexivity fails at eps = 0, because the code's
strict comparison makes `a.approx_eq_eps(a, 0.0)` evaluate `0 < 0`. -/
theorem C5_counterexample :
    ¬ F64.approx_eq_eps (.fin 0) (.fin 0) (.fin 0) := by
  simp [F64.approx_eq_eps, F64.sub, F64.abs, F64.lt]

/-- C5 (amended): for every finite a and every eps that is strictly greater
than 0 under the IEEE comparison (so positive finite eps or +∞, never NaN),
`a.approx_eq_eps(a, eps)` holds. -/
theorem C5_approx_eq_eps_refl (a : ℝ) (e : F64)
    (h : F64.lt (.fin 0) e) :
    F64.approx_eq_eps (.fin a) (.fin a) e := by
  cases e with
  | nan => simp [F64.lt] at h
  | inf s =>
    simp only [F64.lt] at h
    subst h
    simp [F64.approx_eq_eps, F64.sub, F64.abs, F64.lt]
  | fin b =>
    simp only [F64.lt] at h
    simpa [F64.approx_eq_eps, F64.sub, F64.abs, F64.lt] using h

/-- C5 witness: reflexivity at a = 1 with eps = 1. -/
theorem C5_approx_eq_eps_refl_witness :
    F64.approx_eq_eps (.fin 1) (.fin 1) (.fin 1) :=
  C5_approx_eq_eps_refl 1 (.fin 1) (by simp only [F64.lt]; norm_num)

/-- C6 counterexample: `Vec2(+∞, NaN)` has an infinite coordinate, yet its
length is NaN (the NaN coordinate wins in the sum), not +∞. -/
theorem C6_counterexample :
    Vec2.length ⟨.inf true, .nan⟩ = F64.nan ∧ F64.nan ≠ F64.inf true := by
  refine ⟨?_, fun h => F64.noConfusion h⟩
  simp [Vec2.length, F64.mul, F64.add, F64.sqrt]

/-- C6 (amended): `length` is `sqrt(x*x + y*y)` (exact on finite
coordinates), `magnitude` is an alias for it, the result is never negative
under the IEEE `<`, it is NaN whenever some coordinate is NaN, and it is +∞
whenever some coordinate is infinite and the other coordinate is not NaN. -/
theorem C6_length_spec :
    (∀ x y : ℝ, Vec2.length ⟨.fin x, .fin y⟩ = .fin (Real.sqrt (x * x + y * y))) ∧
    (∀ v : Vec2, v.magnitude = v.length) ∧
    (∀ v : Vec2, ¬ F64.lt v.length (.fin 0)) ∧
    (∀ v : Vec2, (v.x = .nan ∨ v.y = .nan) → v.length = .nan) ∧
    (∀ v : Vec2, ((∃ s, v.x = .inf s) ∨ (∃ s, v.y = .inf s)) →
      v.x ≠ .nan → v.y ≠ .nan → v.length = .inf true) := by
  refine ⟨?_, fun v => rfl, ?_, ?_, ?_⟩
  · intro x y
    have hnn : ¬ (x * x + y * y < 0) := by
      nlinarith [mul_self_nonneg x, mul_self_nonneg y]
    simp [Vec2.length, F64.mul, F64.add, F64.sqrt, hnn]
  · rintro ⟨x, y⟩
    cases x with
    | nan => simp [Vec2.length, F64.mul, F64.add, F64.sqrt, F64.lt]
    | inf s => cases y <;> simp [Vec2.length, F64.mul, F64.add, F64.sqrt, F64.lt]
    | fin a =>
      cases y with
      | nan => simp [Vec2.length, F64.mul, F64.add, F64.sqrt, F64.lt]
      | inf s => simp [Vec2.length, F64.mul, F64.add, F64.sqrt, F64.lt]
      | fin b =>
        simp only [Vec2.length, F64.mul, F64.add, F64.sqrt]
        split
        · simp [F64.lt]
        · simp [F64.lt, Real.sqrt_nonneg, not_lt.mpr]
  · rintro ⟨x, y⟩ h
    rcases h with h | h
    · simp only at h
      subst h
      cases y <;> simp [Vec2.length, F64.mul, F64.add, F64.sqrt]
    · simp only at h
      subst h
      cases x <;> simp [Vec2.length, F64.mul, F64.add, F64.sqrt]
  · rintro ⟨x, y⟩ h hx hy
    rcases h with ⟨s, h⟩ | ⟨s, h⟩
    · simp only at h hx hy
      subst h
      cases y with
      | nan => exact absurd rfl hy
      | fin b => simp [Vec2.length, F64.mul, F64.add, F64.sqrt]
      | inf t => simp [Vec2.length, F64.mul, F64.add, F64.sqrt]
    · simp only at h hx hy
      subst h
      cases x with
      | nan => exact absurd rfl hx
      | fin a => simp [Vec2.length, F64.mul, F64.add, F64.sqrt]
      | inf t => simp [Vec2.length, F64.mul, F64.add, F64.sqrt]

/-- C6 witness: concrete evaluations of the non-negativity, NaN, and
infinity parts. -/
theorem C6_length_spec_witness :
    ¬ F64.lt (Vec2.length ⟨.fin 3, .fin 4⟩) (.fin 0) ∧
    Vec2.length ⟨.nan, .fin 0⟩ = .nan ∧
    Vec2.length ⟨.inf true, .fin 0⟩ = .inf true :=
  ⟨C6_length_spec.2.2.1 ⟨.fin 3, .fin 4⟩,
   C6_length_spec.2.2.2.1 ⟨.nan, .fin 0⟩ (Or.inl rfl),
   C6_length_spec.2.2.2.2 ⟨.inf true, .fin 0⟩ (Or.inl ⟨true, rfl⟩)
     (fun h => F64.noConfusion h) (fun h => F64.noConfusion h)⟩

/-- C7: `length` and `sqrt(dot(self, self))` are the same computation: for
every Vec2 (finite, infinite or NaN coordinates alike) the two produce the
identical value. -/
theorem C7_length_eq_sqrt_dot (v : Vec2) : v.length = F64.sqrt (v.dot v) := rfl

/-- IEEE multiplication on idealized doubles is commutative. -/
theorem F64.mul_commut (a b : F64) : a.mul b = b.mul a := by
  cases a with
  | nan => cases b <;> rfl
  | fin x =>
    cases b with
    | nan => rfl
    | fin y => simp [F64.mul, mul_comm]
    | inf s => rfl
  | inf s =>
    cases b with
    | nan => rfl
    | fin y => rfl
    | inf t => cases s <;> cases t <;> rfl

/-- C8: `dot` returns `x1*x2 + y1*y2` (exact on finite coordinates), is
commutative for all inputs, and evaluates to exactly 66 on the spec's
example. -/
theorem C8_dot_spec :
    (∀ ax ay bx b2 : ℝ, Vec2.dot ⟨.fin ax, .fin ay⟩ ⟨.fin bx, .fin b2⟩ =
      .fin (ax * bx + ay * b2)) ∧
    (∀ a b : Vec2, a.dot b = b.dot a) ∧
    Vec2.dot ⟨.fin 5, .fin 12⟩ ⟨.fin (-6), .fin 8⟩ = .fin 66 := by
  refine ⟨fun ax ay bx b2 => rfl, fun a b => ?_, ?_⟩
  · unfold Vec2.dot
    rw [F64.mul_commut a.x b.x, F64.mul_commut a.y b.y]
  · norm_num [Vec2.dot, F64.mul, F64.add]

/-- C9: the (owned-operand) arithmetic operators are componentwise: vector +
vector and vector − vector act coordinate by coordinate, and vector ± scalar
applies the scalar to both coordinates; on finite coordinates this is exact
real addition and subtraction. -/
theorem C9_add_sub_componentwise :
    (∀ a b : Vec2, Vec2.addOwnOwn a b = ⟨a.x.add b.x, a.y.add b.y⟩) ∧
    (∀ a : Vec2, ∀ s : F64, Vec2.addOwnScalar a s = ⟨a.x.add s, a.y.add s⟩) ∧
    (∀ a b : Vec2, Vec2.subOwnOwn a b = ⟨a.x.sub b.x, a.y.sub b.y⟩) ∧
    (∀ a : Vec2, ∀ s : F64, Vec2.subOwnScalar a s = ⟨a.x.sub s, a.y.sub s⟩) ∧
    (∀ ax ay bx b2 : ℝ, Vec2.addOwnOwn ⟨.fin ax, .fin ay⟩ ⟨.fin bx, .fin b2⟩ =
      ⟨.fin (ax + bx), .fin (ay + b2)⟩) ∧
    (∀ ax ay s : ℝ, Vec2.addOwnScalar ⟨.fin ax, .fin ay⟩ (.fin s) =
      ⟨.fin (ax + s), .fin (ay + s)⟩) ∧
    (∀ ax ay bx b2 : ℝ, Vec2.subOwnOwn ⟨.fin ax, .fin ay⟩ ⟨.fin bx, .fin b2⟩ =
      ⟨.fin (ax - bx), .fin (ay - b2)⟩) ∧
    (∀ ax ay s : ℝ, Vec2.subOwnScalar ⟨.fin ax, .fin ay⟩ (.fin s) =
      ⟨.fin (ax - s), .fin (ay - s)⟩) :=
  ⟨fun _ _ => rfl, fun _ _ => rfl, fun _ _ => rfl, fun _ _ => rfl,
   fun _ _ _ _ => rfl, fun _ _ _ => rfl, fun _ _ _ _ => rfl, fun _ _ _ => rfl⟩

/-- C10: every owned/borrowed overload variant agrees with its sibling: the
four Vec2+Vec2 impls, the two Vec2+f64 impls, the four Vec2−Vec2 impls, the
two Vec2−f64 impls, and the three ApproxEq impls each compute the same
function. -/
theorem C10_overload_variants_agree :
    (∀ a b : Vec2, Vec2.addOwnRef a b = Vec2.addOwnOwn a b ∧
      Vec2.addRefRef a b = Vec2.addOwnOwn a b ∧
      Vec2.addRefOwn a b = Vec2.addOwnOwn a b) ∧
    (∀ a : Vec2, ∀ s : F64, Vec2.addRefScalar a s = Vec2.addOwnScalar a s) ∧
    (∀ a b : Vec2, Vec2.subOwnRef a b = Vec2.subOwnOwn a b ∧
      Vec2.subRefRef a b = Vec2.subOwnOwn a b ∧
      Vec2.subRefOwn a b = Vec2.subOwnOwn a b) ∧
    (∀ a : Vec2, ∀ s : F64, Vec2.subRefScalar a s = Vec2.subOwnScalar a s) ∧
    (∀ a b e : Vec2, (Vec2.approx_eq_epsV2 a b e ↔ Vec2.approx_eq_eps a b e) ∧
      (Vec2.approx_eq_epsV3 a b e ↔ Vec2.approx_eq_eps a b e)) ∧
    (∀ a b : Vec2, (Vec2.approx_eqV2 a b ↔ Vec2.approx_eq a b) ∧
      (Vec2.approx_eqV3 a b ↔ Vec2.approx_eq a b)) :=
  ⟨fun _ _ => ⟨rfl, rfl, rfl⟩, fun _ _ => rfl,
   fun _ _ => ⟨rfl, rfl, rfl⟩, fun _ _ => rfl,
   fun _ _ _ => ⟨Iff.rfl, Iff.rfl⟩, fun _ _ => ⟨Iff.rfl, Iff.rfl⟩⟩

end Candle
